import Mathlib

/-!
# Verification of the TSMT numerical fitting core

Shallow embedding of the numerical fitting library of this repository:
the seeded deviate generator (`Deviates.ts`), the bagging resampler
(`Bagging.ts`), simple linear least squares (`llsq.ts`) and polynomial
least squares (`Pllsq.ts`), together with proofs of the behavioural
properties the specification states about them.

JavaScript numbers are IEEE binary64.  Every quantity the properties
below touch is either an integer of magnitude far below `2^53` (the
congruential generator state, shuffle-table entries, indices, counts),
on which binary64 arithmetic is exact, or a small rational; the
embedding therefore uses `ℤ` for the integer-valued generator state and
`ℚ` for real-valued data, which coincides with the source's arithmetic
on the integer seeds and rational data the claims are settled at.
`Math.floor` of a real quotient is `Int.floor` of the rational
quotient; `Math.round x` is `⌊x + 1/2⌋` (JavaScript rounds half-way
cases toward `+∞`); `Math.abs` followed by array indexing is
`Int.natAbs`.  Calls to `Math.sqrt` (and the external matrix solver)
never influence the fields and paths the properties are about; they are
taken as explicit function parameters, so every theorem holds for any
interpretation of them.
-/

namespace TSMT

/-! ## Deviate engine: class constants of `TSMT$Deviates`
(`Deviates.ts` lines 27–35) -/

def IA : ℤ := 16807
def IM : ℤ := 2147483647
def IQ : ℤ := 127773
def IR : ℤ := 2836
def NTAB : ℤ := 32

/-- `AM = 1.0 / IM` as an exact rational. -/
def AM : ℚ := 1 / (IM : ℚ)

/-- `NDIV = 1 + (IM - 1) / NTAB`; the source computes the real (not
integer) quotient, i.e. `67108864.9375`, exactly representable in
binary64. -/
def NDIV : ℚ := 1 + ((IM : ℚ) - 1) / (NTAB : ℚ)

/-- `EPS = 1.2e-7` as an exact rational. -/
def EPS : ℚ := 12 / 100000000

/-- `RNMX = 1.0 - EPS`, the clamp just below `1.0`. -/
def RNMX : ℚ := 1 - EPS

/-- JavaScript `Math.round`: nearest integer, half-way cases toward `+∞`. -/
def jsRound (q : ℚ) : ℤ := ⌊q + 1/2⌋

/-- JavaScript `Math.floor(a/b)` on integer-valued operands. -/
def floorDiv (a b : ℤ) : ℤ := ⌊(a : ℚ) / (b : ℚ)⌋

/-- One step of the multiplicative congruential generator in Schrage
form (`Deviates.ts` lines 86–91, repeated at lines 101–106):
`k = Math.floor(idum/IQ); idum = IA*(idum - k*IQ) - IR*k;
if (idum < 0) idum += IM`. -/
def ran1Step (d : ℤ) : ℤ :=
  let k := floorDiv d IQ
  let t := IA * (d - k * IQ) - IR * k
  if t < 0 then t + IM else t

/-- `ran1Step` iterated `n` times. -/
def stepN : ℕ → ℤ → ℤ
  | 0, d => d
  | n + 1, d => stepN n (ran1Step d)

/-- `Math.floor` of an integer quotient is `Int` (Euclidean = floor,
for a positive divisor) division. -/
theorem floorDiv_eq_ediv (a : ℤ) (n : ℕ) : floorDiv a (n : ℤ) = a / (n : ℤ) := by
  unfold floorDiv
  have h : (((n : ℤ) : ℚ)) = ((n : ℕ) : ℚ) := by push_cast; ring
  rw [h]
  exact Rat.floor_intCast_div_natCast a n

/-- `ran1Step` written with integer division only (for evaluation). -/
theorem ran1Step_eq (d : ℤ) :
    ran1Step d =
      (if 16807 * (d - d / 127773 * 127773) - 2836 * (d / 127773) < 0
       then 16807 * (d - d / 127773 * 127773) - 2836 * (d / 127773) + 2147483647
       else 16807 * (d - d / 127773 * 127773) - 2836 * (d / 127773)) := by
  have h : floorDiv d (127773 : ℤ) = d / 127773 := by
    have := floorDiv_eq_ediv d 127773
    norm_num at this
    exact this
  simp only [ran1Step, IA, IQ, IR, IM, h]

/-- Schrage's decomposition keeps the generator state inside
`[1, IM-1]`: the split is exact because `IM = IA*IQ + IR`, and the
state never reaches `0` because `IA` and `IM` are coprime (both facts
are inside `omega`'s linear-Diophantine reasoning once the division is
named). -/
theorem ran1Step_bounds {d : ℤ} (h1 : 1 ≤ d) (h2 : d ≤ IM - 1) :
    1 ≤ ran1Step d ∧ ran1Step d ≤ IM - 1 := by
  rw [ran1Step_eq]
  simp only [IM] at h2 ⊢
  omega

/-- Iterated steps stay inside `[1, IM-1]`. -/
theorem stepN_bounds {d : ℤ} (h1 : 1 ≤ d) (h2 : d ≤ IM - 1) (n : ℕ) :
    1 ≤ stepN n d ∧ stepN n d ≤ IM - 1 := by
  induction n generalizing d with
  | zero => exact ⟨h1, h2⟩
  | succ n ih =>
    obtain ⟨ha, hb⟩ := ran1Step_bounds h1 h2
    exact ih ha hb

/-- The state `0` is a fixed point of the generator (how the seed
`IM = 2147483647` collapses the sequence). -/
theorem ran1Step_zero : ran1Step 0 = 0 := by
  rw [ran1Step_eq]; decide

theorem stepN_zero (n : ℕ) : stepN n 0 = 0 := by
  induction n with
  | zero => rfl
  | succ n ih => simpa [stepN, ran1Step_zero] using ih

/-! ## Deviate engine: the `uniform` generator

Instance state of `TSMT$Deviates` as far as `uniform` touches it:
`_idum` and the shuffle table `_iv`.  Out-of-range JavaScript array
reads (which would yield `undefined`) are modelled with `List.getD`;
all reads the theorems rely on are proved in range. -/

structure DevState where
  idum : ℤ
  iv : List ℤ
deriving DecidableEq

/-- Constructor state (`Deviates.ts` lines 49–50): `_idum = 0`, empty
table. -/
def devInit : DevState := ⟨0, []⟩

/-- Seed coercion at line 82: `isNaN(start) || start < 1 ? 1 : start`
(a `none` seed models NaN). -/
def seedCoerce (start : Option ℤ) : ℤ :=
  match start with
  | none => 1
  | some s => if s < 1 then 1 else s

/-- The `init` branch of `uniform` (lines 78–98): discard the table,
coerce the seed, run the generator `NTAB+8 = 40` times — the loop
counts `j` from `len = 39` down to `0` and stores the value of
iteration `j` into slot `j` when `j < 32`, so slot `j` holds the
`(40-j)`-th value after the first 8 warm-up steps and the final
`_idum` is the value in slot 0. -/
def uniformInitState (start : Option ℤ) : DevState :=
  let d8 := stepN 8 (seedCoerce start)
  ⟨stepN 32 d8, (List.range 32).map fun j => stepN (32 - j) d8⟩

/-- Slot selection of the shared tail (line 108):
`j = Math.floor(iy/NDIV)`. -/
def tailSlot (iy : ℤ) : ℤ := ⌊(iy : ℚ) / NDIV⌋

/-- Table read of the shared tail (line 109): `iy = _iv[j]`. -/
def tailRead (iy0 : ℤ) (st : DevState) : ℤ :=
  st.iv.getD (tailSlot iy0).toNat 0

/-- Shared tail of `uniform` (lines 101–113), parameterised by the
value of the local `iy` on entry: advance `_idum` one congruential
step, read table slot `j = Math.floor(iy/NDIV)`, overwrite that slot
with the new `_idum`, return `AM` times the value read, clamped to
`RNMX`. -/
def uniformTail (iy0 : ℤ) (st : DevState) : ℚ × DevState :=
  let idum' := ran1Step st.idum
  let iy := tailRead iy0 st
  let iv' := st.iv.set (tailSlot iy0).toNat idum'
  let temp := AM * (iy : ℚ)
  (if temp > RNMX then RNMX else temp, ⟨idum', iv'⟩)

/-- `uniform(start, init)` (lines 72–114).  The local `iy` is declared
`= 0` at line 75; the `init` branch re-seeds the state and sets
`iy = _iv[0]` (line 98), otherwise `iy` is still `0` when the shared
tail runs. -/
def uniformCall (start : Option ℤ) (init : Bool) (st : DevState) : ℚ × DevState :=
  if init then
    let st' := uniformInitState start
    uniformTail (st'.iv.getD 0 0) st'
  else
    uniformTail 0 st

/-- State invariant: full 32-entry table, every entry and `_idum` in
`[1, IM-1]`. -/
def DevGood (st : DevState) : Prop :=
  st.iv.length = 32 ∧ (∀ v ∈ st.iv, 1 ≤ v ∧ v ≤ IM - 1) ∧
    1 ≤ st.idum ∧ st.idum ≤ IM - 1

instance (st : DevState) : Decidable (DevGood st) := by
  unfold DevGood; infer_instance

/-- Seeding with an integer seed in `[1, IM-1]` (or a NaN seed, coerced
to 1) establishes the invariant. -/
theorem uniformInitState_good (start : Option ℤ)
    (h : ∀ s, start = some s → s ≤ IM - 1) :
    DevGood (uniformInitState start) := by
  have hd0 : 1 ≤ seedCoerce start ∧ seedCoerce start ≤ IM - 1 := by
    match start with
    | none => exact ⟨le_refl 1, by norm_num [seedCoerce, IM]⟩
    | some s =>
      by_cases hs : s < 1
      · simp only [seedCoerce, if_pos hs]
        exact ⟨le_refl 1, by norm_num [IM]⟩
      · simp only [seedCoerce, if_neg hs]
        exact ⟨by omega, h s rfl⟩
  have h8 := stepN_bounds hd0.1 hd0.2 8
  refine ⟨by simp [uniformInitState], ?_, ?_, ?_⟩
  · intro v hv
    simp only [uniformInitState, List.mem_map] at hv
    obtain ⟨j, _, rfl⟩ := hv
    exact stepN_bounds h8.1 h8.2 _
  · simp only [uniformInitState]
    exact (stepN_bounds h8.1 h8.2 32).1
  · simp only [uniformInitState]
    exact (stepN_bounds h8.1 h8.2 32).2

/-- The slot index lands in `[0, 31]` for any `iy` in `[0, IM-1]`. -/
theorem tailSlot_bounds {iy : ℤ} (h0 : 0 ≤ iy) (h1 : iy ≤ IM - 1) :
    0 ≤ tailSlot iy ∧ tailSlot iy < 32 := by
  have hN : (0 : ℚ) < NDIV := by norm_num [NDIV, IM, NTAB]
  constructor
  · apply Int.floor_nonneg.2
    positivity
  · rw [tailSlot, Int.floor_lt]
    rw [div_lt_iff₀ hN]
    have : (iy : ℚ) ≤ (IM : ℚ) - 1 := by exact_mod_cast h1
    norm_num [NDIV, IM, NTAB] at *
    linarith

/-- The shared tail preserves the invariant and returns a value in
`(0, RNMX]` whenever the incoming local `iy` is in `[0, IM-1]`. -/
theorem uniformTail_good {iy0 : ℤ} {st : DevState} (hg : DevGood st)
    (h0 : 0 ≤ iy0) (h1 : iy0 ≤ IM - 1) :
    0 < (uniformTail iy0 st).1 ∧ (uniformTail iy0 st).1 ≤ RNMX ∧
      DevGood (uniformTail iy0 st).2 := by
  obtain ⟨hlen, hmem, hi1, hi2⟩ := hg
  obtain ⟨hs0, hs1⟩ := tailSlot_bounds h0 h1
  have hslot : (tailSlot iy0).toNat < st.iv.length := by omega
  have hread : 1 ≤ tailRead iy0 st ∧ tailRead iy0 st ≤ IM - 1 := by
    have heq : tailRead iy0 st = st.iv[(tailSlot iy0).toNat] :=
      List.getD_eq_getElem _ _ hslot
    rw [heq]
    exact hmem _ (List.getElem_mem hslot)
  have hval : 0 < AM * ((tailRead iy0 st : ℤ) : ℚ) ∧
      AM * ((tailRead iy0 st : ℤ) : ℚ) < 1 := by
    have hc1 : (1 : ℚ) ≤ ((tailRead iy0 st : ℤ) : ℚ) := by exact_mod_cast hread.1
    have hc2 : ((tailRead iy0 st : ℤ) : ℚ) ≤ (IM : ℚ) - 1 := by
      have := hread.2
      exact_mod_cast this
    constructor
    · have : (0 : ℚ) < AM := by norm_num [AM, IM]
      nlinarith
    · rw [AM]
      rw [div_mul_eq_mul_div, div_lt_one (by norm_num [IM])]
      norm_num [IM] at hc2 ⊢
      linarith
  constructor
  · simp only [uniformTail]
    split
    · norm_num [RNMX, EPS]
    · exact hval.1
  constructor
  · simp only [uniformTail]
    split
    · exact le_refl _
    · rename_i hgt
      push_neg at hgt
      exact hgt
  · refine ⟨by simp [uniformTail, List.length_set, hlen], ?_, ?_, ?_⟩
    · intro v hv
      simp only [uniformTail] at hv
      rcases List.mem_or_eq_of_mem_set hv with hv' | rfl
      · exact hmem v hv'
      · exact ran1Step_bounds hi1 hi2
    · exact (ran1Step_bounds hi1 hi2).1
    · exact (ran1Step_bounds hi1 hi2).2

/-- Any `uniform` call whose seed argument is an integer at most
`IM - 1` (or NaN), on a good state, yields a value in `(0, RNMX]` and a
good state; the non-init call only needs the good state. -/
theorem uniformCall_good {start : Option ℤ} {init : Bool} {st : DevState}
    (hst : init = false → DevGood st)
    (hs : init = true → ∀ s, start = some s → s ≤ IM - 1) :
    0 < (uniformCall start init st).1 ∧ (uniformCall start init st).1 ≤ RNMX ∧
      DevGood (uniformCall start init st).2 := by
  cases init with
  | false =>
    have hg := hst rfl
    simpa [uniformCall] using uniformTail_good hg (le_refl 0) (by norm_num [IM])
  | true =>
    have hg := uniformInitState_good start (hs rfl)
    have hlen : (uniformInitState start).iv.length = 32 := hg.1
    have hiv0 : 0 < (uniformInitState start).iv.length := by omega
    have hmem0 : (uniformInitState start).iv.getD 0 0 ∈ (uniformInitState start).iv := by
      rw [List.getD_eq_getElem _ _ hiv0]
      exact List.getElem_mem hiv0
    have hb := hg.2.1 _ hmem0
    simpa [uniformCall] using uniformTail_good hg (by omega) hb.2

/-! ## The sequence `uniform(s, true); uniform(s, false); ...` -/

/-- The result (value and state) of the `(n+1)`-th call of the usage
pattern "seed once, then keep drawing", started from an arbitrary prior
instance state `st0`: call `0` is `uniform(s, true)`, every later call
is `uniform(s, false)`. -/
def uniformCallsFrom (st0 : DevState) (s : ℤ) : ℕ → ℚ × DevState
  | 0 => uniformCall (some s) true st0
  | n + 1 => uniformCall (some s) false (uniformCallsFrom st0 s n).2

/-- The value sequence produced from a freshly constructed instance. -/
def uniformSeq (s : ℤ) (n : ℕ) : ℚ := (uniformCallsFrom devInit s n).1

/-- Re-seeding ignores the prior state entirely (line 80 clears the
table, line 82 overwrites `_idum`), so the sequence is the same from
any starting state. -/
theorem uniformCallsFrom_eq (st0 : DevState) (s : ℤ) (n : ℕ) :
    uniformCallsFrom st0 s n = uniformCallsFrom devInit s n := by
  induction n with
  | zero => rfl
  | succ n ih => simp only [uniformCallsFrom, ih]

theorem uniformCallsFrom_good {s : ℤ} (hs : s ≤ IM - 1) (st0 : DevState) (n : ℕ) :
    0 < (uniformCallsFrom st0 s n).1 ∧ (uniformCallsFrom st0 s n).1 ≤ RNMX ∧
      DevGood (uniformCallsFrom st0 s n).2 := by
  induction n with
  | zero =>
    exact uniformCall_good (fun h => by cases h)
      (fun _ v hv => by injection hv with hv; omega)
  | succ n ih =>
    exact uniformCall_good (fun _ => ih.2.2) (fun h => by cases h)

/-- C1 (amended): for every integer seed `s` with `1 ≤ s ≤ IM - 2 + 1 =
2147483646`, the sequence `uniform(s, true)` followed by repeated
`uniform(s, false)` is deterministic and reproducible — re-seeding with
the same `s` from any instance state yields the identical sequence —
and every value lies in `(0, RNMX]` with `RNMX < 1`: positive, clamped
below a constant just under `1.0`, never exactly `1.0`. -/
theorem c1_uniform_sequence_in_open_unit_interval
    (s : ℤ) (h1 : 1 ≤ s) (h2 : s ≤ 2147483646) (n : ℕ) :
    0 < uniformSeq s n ∧ uniformSeq s n ≤ RNMX ∧ RNMX < 1 ∧
      (∀ st0 : DevState, (uniformCallsFrom st0 s n).1 = uniformSeq s n) := by
  have hs : s ≤ IM - 1 := by norm_num [IM]; omega
  have h := uniformCallsFrom_good hs devInit n
  exact ⟨h.1, h.2.1, by norm_num [RNMX, EPS],
    fun st0 => by rw [uniformSeq, uniformCallsFrom_eq]⟩

/-- Witness for C1 at the concrete seed `s = 1`, call `0`. -/
theorem c1_witness :
    0 < uniformSeq 1 0 ∧ uniformSeq 1 0 ≤ RNMX ∧ RNMX < 1 ∧
      (∀ st0 : DevState, (uniformCallsFrom st0 1 0).1 = uniformSeq 1 0) :=
  c1_uniform_sequence_in_open_unit_interval 1 (by decide) (by decide) 0

/-- C1 (counterexample to the claim as stated): the seed
`s = 2147483647 = IM ≥ 1` is a fixed point sending the whole generator
state to `0`, so the very first call returns exactly `0`, which is not
strictly inside `(0, 1)`. -/
theorem c1_counterexample_seed_IM :
    uniformSeq 2147483647 0 = 0 ∧
      ¬ (0 < uniformSeq 2147483647 0 ∧ uniformSeq 2147483647 0 < 1) := by
  have hstep : ran1Step 2147483647 = 0 := by rw [ran1Step_eq]; decide
  have hseed : seedCoerce (some 2147483647) = 2147483647 := by
    norm_num [seedCoerce]
  have h8 : stepN 8 (seedCoerce (some 2147483647)) = 0 := by
    rw [hseed]
    show stepN 7 (ran1Step 2147483647) = 0
    rw [hstep, stepN_zero]
  have hinit : uniformInitState (some 2147483647) = ⟨0, List.replicate 32 0⟩ := by
    simp [uniformInitState, h8, stepN_zero, List.map_const']
  have hzero : uniformSeq 2147483647 0 = 0 := by
    show (uniformCall (some 2147483647) true devInit).1 = 0
    simp only [uniformCall, hinit, uniformTail]
    norm_num [tailRead, tailSlot, List.getD, AM, RNMX, EPS, NDIV, IM, NTAB]
  exact ⟨hzero, by rw [hzero]; norm_num⟩

/-! ## Evaluation mirrors (integer-division forms, proved equal) -/

def ran1StepInt (d : ℤ) : ℤ :=
  let k := d / 127773
  let t := 16807 * (d - k * 127773) - 2836 * k
  if t < 0 then t + 2147483647 else t

theorem ran1Step_eq_fun : ran1Step = ran1StepInt := by
  funext d
  rw [ran1Step_eq]
  rfl

def stepNInt : ℕ → ℤ → ℤ
  | 0, d => d
  | n + 1, d => stepNInt n (ran1StepInt d)

theorem stepN_eq_fun : stepN = stepNInt := by
  funext n
  induction n with
  | zero => rfl
  | succ n ih =>
    funext d
    show stepN n (ran1Step d) = stepNInt n (ran1StepInt d)
    rw [ih, ran1Step_eq_fun]

theorem tailSlot_eq_int (iy : ℤ) : tailSlot iy = 32 * iy / 2147483678 := by
  have h : (iy : ℚ) / NDIV = ((32 * iy : ℤ) : ℚ) / ((2147483678 : ℕ) : ℚ) := by
    have hN : NDIV = 2147483678 / 32 := by norm_num [NDIV, IM, NTAB]
    rw [hN]
    push_cast
    rw [div_div_eq_mul_div]
    ring
  rw [tailSlot, h, Rat.floor_intCast_div_natCast]
  norm_num

set_option maxRecDepth 40000 in
/-- C8: the Bays–Durham machinery is defeated by a port slip.  In NRC's
`ran1` the previous output state `iy` is `static`; here `iy` is a local
variable initialized to `0` on every call (line 75), so every
non-initializing call reads and overwrites shuffle slot
`⌊0/NDIV⌋ = 0` — the slot never varies with the previous call's output.
First conjunct: every `uniform(s, false)` call runs the shared tail
with `iy = 0`.  Second: that means slot `0`.  Third: at seed `1` the
slot the claim prescribes for the second call — the previous call's
table read divided by `NDIV` — is `13`, not `0`. -/
theorem c8_shuffle_slot_always_zero :
    (∀ (start : Option ℤ) (st : DevState), uniformCall start false st = uniformTail 0 st)
    ∧ tailSlot 0 = 0
    ∧ tailSlot (tailRead ((uniformInitState (some 1)).iv.getD 0 0)
        (uniformInitState (some 1))) = 13 := by
  refine ⟨fun start st => rfl, by rw [tailSlot_eq_int]; norm_num, ?_⟩
  have hinit : uniformInitState (some 1) =
      ⟨stepNInt 32 (stepNInt 8 1), (List.range 32).map fun j => stepNInt (32 - j) (stepNInt 8 1)⟩ := by
    simp [uniformInitState, stepN_eq_fun, seedCoerce]
  rw [hinit, tailSlot_eq_int, tailRead, tailSlot_eq_int]
  decide

/-! ## Resampler: `TSMT$Bagging`

All four operations share one static `TSMT$Deviates` instance that each
call re-seeds with the constant `1001`; since re-seeding ignores prior
state (`uniformCallsFrom_eq`), each embedded operation starts its
generator from `uniform(1001, true)` applied to the constructor state.
`data[index]` is modelled with `List.getD index 0`; every read the
theorems rely on is proved in range.  Counts and sizes are embedded
with `Option ℤ` (`none` models `undefined`/`null`); `Math.round` on an
integer is the identity.  The without-replacement `while` loops retry
until enough distinct indices are collected, so they are embedded with
an explicit `fuel` bound; `none` means the loop was still running when
the fuel ran out. -/

/-- The 2D sample pair (`ISamples`). -/
structure Samples where
  x : List ℚ
  y : List ℚ
deriving DecidableEq

/-- One index draw (shared by all four loops, e.g. lines 74–76):
`r = uniform(1001, false); index = Math.floor(Math.round(min + r*(max - min)));
index = Math.abs(index)` with `min = -0.499`, `max = n - 1 + 0.499`.
`Math.round` already yields an integer so the outer `Math.floor` is the
identity on it; `Math.abs` (which also clears the `-0` artifact) plus
array indexing is `Int.natAbs`. -/
def drawIndex (n : ℕ) (st : DevState) : ℕ × DevState :=
  let rs := uniformCall (some 1001) false st
  let minq : ℚ := -(499/1000)
  let maxq : ℚ := (n : ℚ) - 1 + 499/1000
  ((jsRound (minq + rs.1 * (maxq - minq))).natAbs, rs.2)

/-- The inner `for (j = 0; j < n; ++j)` of the with-replacement loops,
collecting the drawn indices in order. -/
def drawIdxList (n : ℕ) : ℕ → DevState → List ℕ × DevState
  | 0, st => ([], st)
  | c + 1, st =>
    let is := drawIndex n st
    let rest := drawIdxList n c is.2
    (is.1 :: rest.1, rest.2)

/-- Effective `numSets` (line 59):
`numSets == undefined || numSets == null || numSets < 1 ? n : Math.round(numSets)`
(the 2D variants, lines 166/222, additionally test `isNaN`, which the
`Option` already models). -/
def effB (n : ℕ) (numSets : Option ℤ) : ℤ :=
  match numSets with
  | none => n
  | some v => if v < 1 then n else v

/-- Outer loop of `get1DSamplesWithReplacement` (lines 68–80). -/
def sampleSetsWR (data : List ℚ) : ℕ → DevState → List (List ℚ) × DevState
  | 0, st => ([], st)
  | b + 1, st =>
    let is := drawIdxList data.length data.length st
    let rest := sampleSetsWR data b is.2
    (is.1.map (fun i => data.getD i 0) :: rest.1, rest.2)

/-- `TSMT$Bagging.get1DSamplesWithReplacement` (lines 52–83). -/
def get1DSamplesWithReplacement (data : Option (List ℚ)) (numSets : Option ℤ) :
    List (List ℚ) :=
  match data with
  | none => []                          -- undefined/null guard, line 54
  | some d =>
    if d.length = 0 then []
    else
      let st0 := (uniformCall (some 1001) true devInit).2   -- line 62
      (sampleSetsWR d (effB d.length numSets).toNat st0).1

/-- Outer loop of `get2DSamplesWithReplacement` (lines 175–191): the
same drawn index selects from both coordinate arrays. -/
def sampleSets2DWR (x y : List ℚ) : ℕ → DevState → List Samples × DevState
  | 0, st => ([], st)
  | b + 1, st =>
    let is := drawIdxList x.length x.length st
    let rest := sampleSets2DWR x y b is.2
    (⟨is.1.map (fun i => x.getD i 0), is.1.map (fun i => y.getD i 0)⟩ :: rest.1, rest.2)

/-- `TSMT$Bagging.get2DSamplesWithReplacement` (lines 155–194). -/
def get2DSamplesWithReplacement (x y : Option (List ℚ)) (numSets : Option ℤ) :
    List Samples :=
  match x, y with
  | some xs, some ys =>
    if xs.length = 0 then []
    else if ys.length ≠ xs.length then []
    else
      let st0 := (uniformCall (some 1001) true devInit).2
      (sampleSets2DWR xs ys (effB xs.length numSets).toNat st0).1
  | _, _ => []                          -- !x || !y guard, line 157

/-- Effective sample size of the 1D without-replacement variant
(line 105): `m == undefined || isNaN(m) || m < 1 || m > n ?
Math.floor(n/2) : Math.round(m)` — here `undefined`, `null` and `NaN`
all take the default branch, so `Option` suffices. -/
def effM1D (n : ℕ) (m : Option ℤ) : ℤ :=
  match m with
  | none => (n : ℤ) / 2
  | some v => if v < 1 ∨ (n : ℤ) < v then (n : ℤ) / 2 else v

/-- A JavaScript number argument as the 2D sample-size guard
distinguishes them: `undefined`/`null`, `NaN`, or a numeric value. -/
inductive JSArg where
  | undef : JSArg
  | nan : JSArg
  | val : ℤ → JSArg

/-- Effective sample size of the 2D without-replacement variant
(line 221): `m == undefined || m < 1 || m > n ? Math.floor(n/2) : m` —
unlike the 1D variant there is **no** `isNaN` test, and every
comparison against NaN is false (`NaN == undefined` included), so a NaN
sample size passes through unchanged; `none` in the result models that
surviving NaN. -/
def effM2D (n : ℕ) (m : JSArg) : Option ℤ :=
  match m with
  | .undef => some ((n : ℤ) / 2)
  | .nan => none
  | .val v => if v < 1 ∨ (n : ℤ) < v then some ((n : ℤ) / 2) else some v

/-- The loop guard `tmp.length < m` where `m` may be a surviving NaN
(`none`): a comparison against NaN is always false in JS. -/
def ltNaN (a : ℤ) (m : Option ℤ) : Bool :=
  match m with
  | none => false
  | some v => a < v

/-- The final size `m.toNat` of a completed without-replacement set
(`0` when the bound is a surviving NaN, since the loop never runs). -/
def optSize (m : Option ℤ) : ℕ :=
  match m with
  | none => 0
  | some v => v.toNat

/-- The `while (tmp.length < m)` collision-retry loop of the
without-replacement variants (lines 125–136 / 243–256): draw an index;
if it is not yet marked in `sampledIndices`, push it and mark it;
repeat until `m` indices are collected (or immediately exit when `m` is
a surviving NaN).  `acc` carries the pushed indices in order (it has
the same members as `sampledIndices`). -/
def drawUniqueIdx (n : ℕ) (m : Option ℤ) : ℕ → List ℕ → DevState →
    Option (List ℕ × DevState)
  | fuel, acc, st =>
    if ltNaN acc.length m then
      match fuel with
      | 0 => none
      | f + 1 =>
        let is := drawIndex n st
        if is.1 ∈ acc then drawUniqueIdx n m f acc is.2
        else drawUniqueIdx n m f (acc ++ [is.1]) is.2
    else some (acc, st)

/-- Outer loop of the without-replacement variants (index level):
`sampledIndices.length = 0` resets the marks for each output set. -/
def sampleSetsNR (n : ℕ) (m : Option ℤ) (fuel : ℕ) : ℕ → DevState →
    Option (List (List ℕ) × DevState)
  | 0, st => some ([], st)
  | b + 1, st =>
    match drawUniqueIdx n m fuel [] st with
    | none => none
    | some (ixs, st') =>
      match sampleSetsNR n m fuel b st' with
      | none => none
      | some (rest, st'') => some (ixs :: rest, st'')

/-- `TSMT$Bagging.get1DSamplesWithoutReplacement` (lines 98–140), at
index level; the value-level result maps `data[i]` over each index
set, exactly as the loop pushes `data[index]` when it records `index`. -/
def get1DSamplesWithoutReplacementIdx (data : Option (List ℚ)) (m numSets : Option ℤ)
    (fuel : ℕ) : Option (List (List ℕ)) :=
  match data with
  | none => some []                     -- null guard returns [], line 100
  | some d =>
    if d.length = 0 then some []
    else
      let st0 := (uniformCall (some 1001) true devInit).2   -- line 109
      match sampleSetsNR d.length (some (effM1D d.length m)) fuel
          (effB d.length numSets).toNat st0 with
      | none => none
      | some (sets, _) => some sets

/-- `TSMT$Bagging.get1DSamplesWithoutReplacement`, value level. -/
def get1DSamplesWithoutReplacement (data : Option (List ℚ)) (m numSets : Option ℤ)
    (fuel : ℕ) : Option (List (List ℚ)) :=
  match get1DSamplesWithoutReplacementIdx data m numSets fuel, data with
  | some sets, some d => some (sets.map fun ixs => ixs.map fun i => d.getD i 0)
  | some sets, none => some (sets.map fun ixs => ixs.map fun _ => 0)
  | none, _ => none

/-- `TSMT$Bagging.get2DSamplesWithoutReplacement` (lines 210–261), at
index level.  The sample size is a `JSArg` because line 221's guard
(unlike the 1D variant's) lets a NaN survive into the loop bound. -/
def get2DSamplesWithoutReplacementIdx (x y : Option (List ℚ)) (m : JSArg)
    (numSets : Option ℤ) (fuel : ℕ) : Option (List (List ℕ)) :=
  match x, y with
  | some xs, some ys =>
    if xs.length = 0 then some []
    else if ys.length ≠ xs.length then some []
    else
      let st0 := (uniformCall (some 1001) true devInit).2
      match sampleSetsNR xs.length (effM2D xs.length m) fuel (effB xs.length numSets).toNat st0 with
      | none => none
      | some (sets, _) => some sets
  | _, _ => some []                     -- !x || !y guard, line 212

/-- `TSMT$Bagging.get2DSamplesWithoutReplacement`, value level: each
accepted index pushes `x[index]` and `y[index]` together. -/
def get2DSamplesWithoutReplacement (x y : Option (List ℚ)) (m : JSArg)
    (numSets : Option ℤ) (fuel : ℕ) : Option (List Samples) :=
  match get2DSamplesWithoutReplacementIdx x y m numSets fuel, x, y with
  | some sets, some xs, some ys =>
    some (sets.map fun ixs => ⟨ixs.map fun i => xs.getD i 0, ixs.map fun i => ys.getD i 0⟩)
  | some sets, _, _ => some (sets.map fun _ => ⟨[], []⟩)
  | none, _, _ => none

/-! ## Resampler invariants -/

theorem getD_mem {d : List ℚ} {i : ℕ} (h : i < d.length) : d.getD i 0 ∈ d := by
  rw [List.getD_eq_getElem _ _ h]
  exact List.getElem_mem h

/-- A single draw yields an in-range index: for `r ∈ (0, 1)` the
rounded value `round(-0.499 + r*(n - 1 + 0.499 - (-0.499)))` lies in
`[0, n-1]`. -/
theorem drawIndex_lt {n : ℕ} {st : DevState} (hg : DevGood st) (hn : 1 ≤ n) :
    (drawIndex n st).1 < n ∧ DevGood (drawIndex n st).2 := by
  obtain ⟨hr0, hr1, hgood⟩ :=
    @uniformCall_good (some 1001) false st (fun _ => hg) (fun h => by cases h)
  refine ⟨?_, hgood⟩
  simp only [drawIndex, jsRound]
  set r := (uniformCall (some 1001) false st).1 with hrdef
  have hnq : (1 : ℚ) ≤ (n : ℚ) := by exact_mod_cast hn
  have hrlt : r < 1 := lt_of_le_of_lt hr1 (by norm_num [RNMX, EPS])
  have key : 0 ≤ ⌊-(499/1000) + r * (((n : ℚ) - 1 + 499/1000) - -(499/1000)) + 1/2⌋ ∧
      ⌊-(499/1000) + r * (((n : ℚ) - 1 + 499/1000) - -(499/1000)) + 1/2⌋ < (n : ℤ) := by
    constructor
    · apply Int.floor_nonneg.2
      nlinarith
    · apply Int.floor_lt.2
      push_cast
      nlinarith
  omega

/-- The inner with-replacement loop draws `c` in-range indices. -/
theorem drawIdxList_spec {n : ℕ} (hn : 1 ≤ n) (c : ℕ) (st : DevState) (hg : DevGood st) :
    (drawIdxList n c st).1.length = c ∧
      (∀ i ∈ (drawIdxList n c st).1, i < n) ∧
      DevGood (drawIdxList n c st).2 := by
  induction c generalizing st with
  | zero => exact ⟨rfl, by simp [drawIdxList], hg⟩
  | succ c ih =>
    obtain ⟨hlt, hg'⟩ := drawIndex_lt hg hn
    obtain ⟨ih1, ih2, ih3⟩ := ih _ hg'
    refine ⟨by simp [drawIdxList, ih1], ?_, by simpa [drawIdxList] using ih3⟩
    intro i hi
    simp only [drawIdxList, List.mem_cons] at hi
    rcases hi with rfl | hi
    · exact hlt
    · exact ih2 i hi

/-- Every set produced by the 1D with-replacement outer loop has
exactly `n` entries, each copied from the source data. -/
theorem sampleSetsWR_spec {data : List ℚ} (hn : 1 ≤ data.length)
    (b : ℕ) (st : DevState) (hg : DevGood st) :
    ∀ s ∈ (sampleSetsWR data b st).1, s.length = data.length ∧ ∀ v ∈ s, v ∈ data := by
  induction b generalizing st with
  | zero => simp [sampleSetsWR]
  | succ b ih =>
    obtain ⟨h1, h2, h3⟩ := drawIdxList_spec hn data.length st hg
    intro s hs
    simp only [sampleSetsWR, List.mem_cons] at hs
    rcases hs with rfl | hs
    · refine ⟨by simp [h1], ?_⟩
      intro v hv
      simp only [List.mem_map] at hv
      obtain ⟨i, hi, rfl⟩ := hv
      exact getD_mem (h2 i hi)
    · exact ih _ h3 s hs

/-- Every 2D with-replacement sample pair has `n` entries per
coordinate, each copied (at one shared index per draw) from the source
arrays. -/
theorem sampleSets2DWR_spec {x y : List ℚ} (hn : 1 ≤ x.length) (hxy : y.length = x.length)
    (b : ℕ) (st : DevState) (hg : DevGood st) :
    ∀ p ∈ (sampleSets2DWR x y b st).1,
      p.x.length = x.length ∧ p.y.length = x.length ∧
        (∀ v ∈ p.x, v ∈ x) ∧ ∀ v ∈ p.y, v ∈ y := by
  induction b generalizing st with
  | zero => simp [sampleSets2DWR]
  | succ b ih =>
    obtain ⟨h1, h2, h3⟩ := drawIdxList_spec hn x.length st hg
    intro p hp
    simp only [sampleSets2DWR, List.mem_cons] at hp
    rcases hp with rfl | hp
    · refine ⟨by simp [h1], by simp [h1], ?_, ?_⟩
      · intro v hv
        simp only [List.mem_map] at hv
        obtain ⟨i, hi, rfl⟩ := hv
        exact getD_mem (h2 i hi)
      · intro v hv
        simp only [List.mem_map] at hv
        obtain ⟨i, hi, rfl⟩ := hv
        exact getD_mem (hxy ▸ h2 i hi)
    · exact ih _ h3 p hp

theorem ltNaN_true {a : ℤ} {m : Option ℤ} (h : ltNaN a m = true) :
    ∃ v, m = some v ∧ a < v := by
  match m with
  | none => exact absurd h (by simp [ltNaN])
  | some v => exact ⟨v, rfl, by simpa [ltNaN] using h⟩

theorem ltNaN_false {a : ℤ} {v : ℤ} (h : ltNaN a (some v) = false) : v ≤ a := by
  simp only [ltNaN, decide_eq_false_iff_not, not_lt] at h
  exact h

/-- The collision-retry loop, when it terminates, has collected exactly
`max acc.length (optSize m)` indices (where a surviving NaN bound means
an immediate exit), pairwise distinct and in range. -/
theorem drawUniqueIdx_spec {n : ℕ} {m : Option ℤ} (hn : 1 ≤ n) (fuel : ℕ) :
    ∀ (acc : List ℕ) (st : DevState), DevGood st → acc.Nodup →
      (∀ i ∈ acc, i < n) → ∀ out st',
      drawUniqueIdx n m fuel acc st = some (out, st') →
      out.length = max acc.length (optSize m) ∧ out.Nodup ∧
        (∀ i ∈ out, i < n) ∧ DevGood st' := by
  induction fuel with
  | zero =>
    intro acc st hg hnd hacc out st' h
    rw [drawUniqueIdx] at h
    cases hc : ltNaN acc.length m with
    | true =>
      rw [hc, if_pos rfl] at h
      cases h
    | false =>
      rw [hc] at h
      simp only [Bool.false_eq_true, if_false, Option.some.injEq, Prod.mk.injEq] at h
      obtain ⟨h1, h2⟩ := h
      subst h1; subst h2
      refine ⟨?_, hnd, hacc, hg⟩
      match m, hc with
      | none, _ => simp [optSize]
      | some v, hc =>
        have := ltNaN_false hc
        simp only [optSize]
        omega
  | succ f ih =>
    intro acc st hg hnd hacc out st' h
    rw [drawUniqueIdx] at h
    cases hc : ltNaN acc.length m with
    | false =>
      rw [hc] at h
      simp only [Bool.false_eq_true, if_false, Option.some.injEq, Prod.mk.injEq] at h
      obtain ⟨h1, h2⟩ := h
      subst h1; subst h2
      refine ⟨?_, hnd, hacc, hg⟩
      match m, hc with
      | none, _ => simp [optSize]
      | some v, hc =>
        have := ltNaN_false hc
        simp only [optSize]
        omega
    | true =>
      rw [hc, if_pos rfl] at h
      obtain ⟨v, rfl, hcv⟩ := ltNaN_true hc
      obtain ⟨hlt, hg'⟩ := drawIndex_lt hg hn
      by_cases hm : (drawIndex n st).1 ∈ acc
      · rw [if_pos hm] at h
        exact ih acc _ hg' hnd hacc out st' h
      · rw [if_neg hm] at h
        have hnd' : (acc ++ [(drawIndex n st).1]).Nodup := by
          simp [List.nodup_append, hnd, hm]
        have hacc' : ∀ i ∈ acc ++ [(drawIndex n st).1], i < n := by
          intro i hi
          rcases List.mem_append.1 hi with hi | hi
          · exact hacc i hi
          · simp only [List.mem_singleton] at hi
            subst hi
            exact hlt
        obtain ⟨h1, h2, h3, h4⟩ := ih _ _ hg' hnd' hacc' out st' h
        refine ⟨?_, h2, h3, h4⟩
        rw [h1]
        simp only [List.length_append, List.length_singleton, optSize]
        omega

/-- Outer without-replacement loop: when it terminates, every produced
index set has exactly `optSize m` pairwise-distinct in-range indices. -/
theorem sampleSetsNR_spec {n : ℕ} {m : Option ℤ} (hn : 1 ≤ n) (fuel : ℕ) (b : ℕ) :
    ∀ (st : DevState), DevGood st → ∀ sets st',
      sampleSetsNR n m fuel b st = some (sets, st') →
      ∀ ixs ∈ sets, ixs.length = optSize m ∧ ixs.Nodup ∧ ∀ i ∈ ixs, i < n := by
  induction b with
  | zero =>
    intro st hg sets st' h ixs hixs
    rw [sampleSetsNR] at h
    injection h with h
    injection h with h1 h2
    subst h1
    cases hixs
  | succ b ih =>
    intro st hg sets st' h ixs hixs
    rw [sampleSetsNR] at h
    cases hd : drawUniqueIdx n m fuel [] st with
    | none => rw [hd] at h; cases h
    | some v =>
      rw [hd] at h
      obtain ⟨ixs0, st0⟩ := v
      dsimp only at h
      obtain ⟨h1, h2, h3, h4⟩ :=
        drawUniqueIdx_spec hn fuel [] st hg List.nodup_nil (by simp) ixs0 st0 hd
      cases hr : sampleSetsNR n m fuel b st0 with
      | none => rw [hr] at h; cases h
      | some w =>
        rw [hr] at h
        obtain ⟨rest, st1⟩ := w
        injection h with h
        injection h with h5 h6
        subst h5
        rcases List.mem_cons.1 hixs with rfl | hixs
        · exact ⟨by simpa using h1, h2, h3⟩
        · exact ih st0 h4 rest st1 hr ixs hixs

/-- The shared static generator, freshly re-seeded with 1001, is in a
good state. -/
theorem st1001_good : DevGood (uniformCall (some 1001) true devInit).2 :=
  (uniformCall_good (fun h => by cases h)
    (fun _ s hs => by injection hs with hs; subst hs; norm_num [IM])).2.2

theorem get1DIdx_spec (data : List ℚ) (m numSets : Option ℤ) (fuel : ℕ)
    (hd : 1 ≤ data.length) :
    ∀ sets, get1DSamplesWithoutReplacementIdx (some data) m numSets fuel = some sets →
      ∀ ixs ∈ sets, ixs.length = (effM1D data.length m).toNat ∧ ixs.Nodup ∧
        ∀ i ∈ ixs, i < data.length := by
  intro sets h
  simp only [get1DSamplesWithoutReplacementIdx] at h
  rw [if_neg (by omega)] at h
  cases hr : sampleSetsNR data.length (some (effM1D data.length m)) fuel
      (effB data.length numSets).toNat ((uniformCall (some 1001) true devInit).2) with
  | none => rw [hr] at h; cases h
  | some w =>
    rw [hr] at h
    obtain ⟨sets0, stf⟩ := w
    dsimp only at h
    injection h with h
    subst h
    exact sampleSetsNR_spec hd fuel _ _ st1001_good sets0 stf hr

theorem get2DIdx_spec (x y : List ℚ) (m : JSArg) (numSets : Option ℤ) (fuel : ℕ)
    (hx : 1 ≤ x.length) (hxy : y.length = x.length) :
    ∀ sets, get2DSamplesWithoutReplacementIdx (some x) (some y) m numSets fuel = some sets →
      ∀ ixs ∈ sets, ixs.length = optSize (effM2D x.length m) ∧ ixs.Nodup ∧
        ∀ i ∈ ixs, i < x.length := by
  intro sets h
  simp only [get2DSamplesWithoutReplacementIdx] at h
  rw [if_neg (by omega), if_neg (by omega)] at h
  cases hr : sampleSetsNR x.length (effM2D x.length m) fuel
      (effB x.length numSets).toNat ((uniformCall (some 1001) true devInit).2) with
  | none => rw [hr] at h; cases h
  | some w =>
    rw [hr] at h
    obtain ⟨sets0, stf⟩ := w
    dsimp only at h
    injection h with h
    subst h
    exact sampleSetsNR_spec hx fuel _ _ st1001_good sets0 stf hr

/-- C2: for every non-empty source dataset, indices drawn by the four
resampling operations always resolve in range (last conjunct: one draw
on any good generator state yields an index `< n`; the `Int.natAbs` in
`drawIndex` clears the `-0` artifact), and the with-replacement
variants return sets of exactly `n` elements, each an exact copy of
some input value; the without-replacement variants likewise only ever
copy input values. -/
theorem c2_resampling_in_range_exact_copies
    (data x y : List ℚ) (numSets m : Option ℤ) (m2 : JSArg) (fuel : ℕ)
    (hd : 1 ≤ data.length) (hx : 1 ≤ x.length) (hxy : y.length = x.length) :
    (∀ s ∈ get1DSamplesWithReplacement (some data) numSets,
        s.length = data.length ∧ ∀ v ∈ s, v ∈ data)
    ∧ (∀ p ∈ get2DSamplesWithReplacement (some x) (some y) numSets,
        p.x.length = x.length ∧ p.y.length = x.length ∧
          (∀ v ∈ p.x, v ∈ x) ∧ (∀ v ∈ p.y, v ∈ y))
    ∧ (∀ out, get1DSamplesWithoutReplacement (some data) m numSets fuel = some out →
        ∀ s ∈ out, ∀ v ∈ s, v ∈ data)
    ∧ (∀ out, get2DSamplesWithoutReplacement (some x) (some y) m2 numSets fuel = some out →
        ∀ p ∈ out, (∀ v ∈ p.x, v ∈ x) ∧ (∀ v ∈ p.y, v ∈ y))
    ∧ (∀ st : DevState, DevGood st → (drawIndex data.length st).1 < data.length) := by
  refine ⟨?_, ?_, ?_, ?_, fun st hg => (drawIndex_lt hg hd).1⟩
  · intro s hs
    simp only [get1DSamplesWithReplacement] at hs
    rw [if_neg (by omega)] at hs
    exact sampleSetsWR_spec hd _ _ st1001_good s hs
  · intro p hp
    simp only [get2DSamplesWithReplacement] at hp
    rw [if_neg (by omega), if_neg (by omega)] at hp
    exact sampleSets2DWR_spec hx hxy _ _ st1001_good p hp
  · intro out h s hs v hv
    simp only [get1DSamplesWithoutReplacement] at h
    cases hIdx : get1DSamplesWithoutReplacementIdx (some data) m numSets fuel with
    | none => rw [hIdx] at h; cases h
    | some sets =>
      rw [hIdx] at h
      dsimp only at h
      injection h with h
      subst h
      simp only [List.mem_map] at hs
      obtain ⟨ixs, hixs, rfl⟩ := hs
      simp only [List.mem_map] at hv
      obtain ⟨i, hi, rfl⟩ := hv
      exact getD_mem ((get1DIdx_spec data m numSets fuel hd sets hIdx ixs hixs).2.2 i hi)
  · intro out h p hp
    simp only [get2DSamplesWithoutReplacement] at h
    cases hIdx : get2DSamplesWithoutReplacementIdx (some x) (some y) m2 numSets fuel with
    | none => rw [hIdx] at h; cases h
    | some sets =>
      rw [hIdx] at h
      dsimp only at h
      injection h with h
      subst h
      simp only [List.mem_map] at hp
      obtain ⟨ixs, hixs, rfl⟩ := hp
      have hb := (get2DIdx_spec x y m2 numSets fuel hx hxy sets hIdx ixs hixs).2.2
      constructor
      · intro v hv
        simp only [List.mem_map] at hv
        obtain ⟨i, hi, rfl⟩ := hv
        exact getD_mem (hb i hi)
      · intro v hv
        simp only [List.mem_map] at hv
        obtain ⟨i, hi, rfl⟩ := hv
        exact getD_mem (hxy ▸ hb i hi)

/-- Witness for C2 on a concrete dataset and a concrete good generator
state. -/
theorem c2_witness :
    (drawIndex ([(5 : ℚ), 7, 9]).length ⟨1, List.replicate 32 1⟩).1 <
        ([(5 : ℚ), 7, 9]).length
    ∧ ∀ s ∈ get1DSamplesWithReplacement (some [5, 7, 9]) (some 2),
        s.length = ([(5 : ℚ), 7, 9]).length ∧ ∀ v ∈ s, v ∈ [(5 : ℚ), 7, 9] := by
  have h := c2_resampling_in_range_exact_copies [5, 7, 9] [1, 2] [3, 4] (some 2) none
    JSArg.undef 0 (by decide) (by decide) (by decide)
  exact ⟨h.2.2.2.2 ⟨1, List.replicate 32 1⟩ (by decide), h.1⟩

/-- C5 (amended): the 1D without-replacement variant defaults the
sample size to `Math.floor(n/2)` whenever it is omitted or invalid
(including NaN — line 105 tests `isNaN`); the 2D variant does so for
omitted and out-of-range sizes but **not** for NaN (line 221 has no
`isNaN` test): a NaN sample size survives, the `while`-guard
`output[i].x.length < NaN` is immediately false, and every returned
set is empty rather than of size `floor(n/2)`.  In every case, each
set returned by a terminating run consists of exactly the effective
number of elements, drawn at pairwise-distinct in-range source
indices. -/
theorem c5_without_replacement_unique_indices
    (data x y : List ℚ) (m numSets : Option ℤ) (m2 : JSArg) (fuel : ℕ)
    (hd : 1 ≤ data.length) (hx : 1 ≤ x.length) (hxy : y.length = x.length) :
    (effM1D data.length none = (data.length : ℤ) / 2
      ∧ (∀ v : ℤ, v < 1 ∨ (data.length : ℤ) < v →
          effM1D data.length (some v) = (data.length : ℤ) / 2)
      ∧ effM2D x.length .undef = some ((x.length : ℤ) / 2)
      ∧ (∀ v : ℤ, v < 1 ∨ (x.length : ℤ) < v →
          effM2D x.length (.val v) = some ((x.length : ℤ) / 2))
      ∧ effM2D x.length .nan = none)
    ∧ (∀ sets, get1DSamplesWithoutReplacementIdx (some data) m numSets fuel = some sets →
        ∀ ixs ∈ sets, ixs.length = (effM1D data.length m).toNat ∧ ixs.Nodup ∧
          ∀ i ∈ ixs, i < data.length)
    ∧ (∀ out, get1DSamplesWithoutReplacement (some data) m numSets fuel = some out →
        ∀ s ∈ out, s.length = (effM1D data.length m).toNat)
    ∧ (∀ sets, get2DSamplesWithoutReplacementIdx (some x) (some y) m2 numSets fuel = some sets →
        ∀ ixs ∈ sets, ixs.length = optSize (effM2D x.length m2) ∧ ixs.Nodup ∧
          ∀ i ∈ ixs, i < x.length)
    ∧ (∀ out, get2DSamplesWithoutReplacement (some x) (some y) m2 numSets fuel = some out →
        ∀ p ∈ out, p.x.length = optSize (effM2D x.length m2) ∧
          p.y.length = optSize (effM2D x.length m2))
    ∧ (∀ sets, get2DSamplesWithoutReplacementIdx (some x) (some y) .nan numSets fuel
          = some sets → ∀ ixs ∈ sets, ixs = []) := by
  refine ⟨⟨rfl, fun v hv => by simp only [effM1D, if_pos hv], rfl,
      fun v hv => by simp only [effM2D, if_pos hv], rfl⟩,
    get1DIdx_spec data m numSets fuel hd, ?_,
    get2DIdx_spec x y m2 numSets fuel hx hxy, ?_, ?_⟩
  · intro out h s hs
    simp only [get1DSamplesWithoutReplacement] at h
    cases hIdx : get1DSamplesWithoutReplacementIdx (some data) m numSets fuel with
    | none => rw [hIdx] at h; cases h
    | some sets =>
      rw [hIdx] at h
      dsimp only at h
      injection h with h
      subst h
      simp only [List.mem_map] at hs
      obtain ⟨ixs, hixs, rfl⟩ := hs
      simpa using (get1DIdx_spec data m numSets fuel hd sets hIdx ixs hixs).1
  · intro out h p hp
    simp only [get2DSamplesWithoutReplacement] at h
    cases hIdx : get2DSamplesWithoutReplacementIdx (some x) (some y) m2 numSets fuel with
    | none => rw [hIdx] at h; cases h
    | some sets =>
      rw [hIdx] at h
      dsimp only at h
      injection h with h
      subst h
      simp only [List.mem_map] at hp
      obtain ⟨ixs, hixs, rfl⟩ := hp
      have := (get2DIdx_spec x y m2 numSets fuel hx hxy sets hIdx ixs hixs).1
      constructor <;> simpa using this
  · intro sets h ixs hixs
    have := (get2DIdx_spec x y .nan numSets fuel hx hxy sets h ixs hixs).1
    simp only [effM2D, optSize] at this
    exact List.eq_nil_of_length_eq_zero this

/-- C5 (counterexample to the claim as stated): a NaN sample size in
the 2D variant is **not** brought to the `Math.floor(n/2)` default —
line 221's guard has no `isNaN` test and NaN fails every comparison,
so the surviving NaN makes the `while`-guard immediately false and the
returned set is empty: with `n = 2` the claim requires sets of size
`floor(2/2) = 1`, but the set produced has `0` elements. -/
theorem c5_counterexample_2d_nan_sample_size :
    get2DSamplesWithoutReplacementIdx (some [1, 2]) (some [3, 4]) .nan (some 1) 0
        = some [[]]
    ∧ ([] : List ℕ).length ≠ ((([(1 : ℚ), 2]).length : ℤ) / 2).toNat :=
  ⟨rfl, by decide⟩

/-- Witness for C5: a concrete terminating run (singleton dataset, so
the default sample size is `Math.floor(1/2) = 0` and the loop finishes
with no draw needed). -/
theorem c5_witness :
    get1DSamplesWithoutReplacementIdx (some [5]) none (some 1) 0 = some [[]] ∧
      ∀ ixs ∈ [([] : List ℕ)],
        ixs.length = (effM1D ([(5 : ℚ)]).length none).toNat ∧ ixs.Nodup ∧
          ∀ i ∈ ixs, i < ([(5 : ℚ)]).length := by
  have hrun : get1DSamplesWithoutReplacementIdx (some [5]) none (some 1) 0 = some [[]] := rfl
  exact ⟨hrun, (c5_without_replacement_unique_indices [5] [5] [5] none (some 1)
    JSArg.undef 0 (by decide) (by decide) (by decide)).2.1 [[]] hrun⟩

/-! ## Simple linear least squares: `TSMT$LLSQ` (`llsq.ts`)

`fit` is static and stateless.  Its two `Math.sqrt` calls only feed the
`siga`/`sigb` fields, so the square root is a function parameter.  The
source reads `_x.length` at line 61 before any null test, so a null
first argument (or a null second argument once `n ≥ 3`) throws a
`TypeError`; the embedding returns `Except Unit` with `.error ()` for
exactly those reads of `length` on null. -/

structure LLSQResult where
  a : ℚ
  b : ℚ
  siga : ℚ
  sigb : ℚ
  chi2 : ℚ
  r : ℚ
deriving DecidableEq

/-- The degenerate "singleton point at the origin" result (line 64). -/
def llsqZero : LLSQResult := ⟨0, 0, 0, 0, 0, 0⟩

/-- The main body of `TSMT$LLSQ.fit` (lines 67–120), reached when
`n ≥ 3` and the lengths agree.  Loops become sums over the (zipped)
lists; `t*t`-style products are kept as written.  The returned record
swaps the accumulators exactly as line 120 does (`{a: b, b: a, ...}`).
Division by zero (JS `Infinity`/`NaN`, e.g. when all x coincide) is
outside the claims' scope — ℚ division by zero yields 0 instead. -/
def llsqCore (sqrt : ℚ → ℚ) (x y : List ℚ) : LLSQResult :=
  let n : ℕ := x.length
  let sx := x.sum
  let sy := y.sum
  let ss : ℚ := n
  let sxoss := sx / ss
  let ybar := sy / ss
  let st2 := (x.map fun xi => (xi - sxoss) * (xi - sxoss)).sum
  let b := ((x.zip y).map fun p => (p.1 - sxoss) * p.2).sum / st2
  let a := (sy - sx * b) / ss
  let siga0 := sqrt ((1 + sx * sx / (ss * st2)) / ss)
  let sigb0 := sqrt (1 / st2)
  let chi2 := ((x.zip y).map fun p => (p.2 - a - b * p.1) * (p.2 - a - b * p.1)).sum
  let s := (y.map fun yi => (yi - ybar) * (yi - ybar)).sum
  let sigdat := if 2 < n then sqrt (chi2 / ((n : ℚ) - 2)) else 1
  ⟨b, a, siga0 * sigdat, sigb0 * sigdat, chi2, 1 - chi2 / s⟩

/-- `TSMT$LLSQ.fit` (lines 59–121).  Line 61 dereferences `_x.length`
unconditionally; line 63's guard `n < 3 || _y.length != n`
short-circuits, so `_y.length` is only read when `n ≥ 3`. -/
def llsqFit (sqrt : ℚ → ℚ) (x y : Option (List ℚ)) : Except Unit LLSQResult :=
  match x with
  | none => .error ()                    -- TypeError: _x.length on null
  | some xs =>
    if xs.length < 3 then .ok llsqZero
    else match y with
      | none => .error ()                -- TypeError: _y.length on null
      | some ys =>
        if ys.length ≠ xs.length then .ok llsqZero
        else .ok (llsqCore sqrt xs ys)

/-- C3: the claim's "never raises" fails on null input — `fit` reads
`_x.length` before any null check, contradicting its own documentation
("Invalid inputs result in a fit to a singleton point at the origin").
First conjunct: a null x with a well-formed y throws (models as
`.error`).  The remaining conjuncts: for non-null arrays the documented
zeroed degenerate result is indeed returned, without exception, on
too-few points and on mismatched lengths. -/
theorem c3_llsq_null_throws_degenerate_otherwise (sqrt : ℚ → ℚ) :
    llsqFit sqrt none (some [1, 2, 3]) = .error ()
    ∧ llsqFit sqrt (some [1, 2]) (some [1, 2]) = .ok llsqZero
    ∧ llsqFit sqrt (some [0, 1, 2]) (some [1, 2, 3, 4]) = .ok llsqZero
    ∧ llsqFit sqrt (some [0, 1, 2]) none = .error () :=
  ⟨rfl, rfl, rfl, rfl⟩

/-- C6: on the noiseless dataset `x = [0,1,2,3]`, `y = [1,3,5,7]`
(`y = 2x + 1`), the fit recovers slope `a = 2`, intercept `b = 1`,
`R² = 1` and `chi² = 0` exactly, for any square-root interpretation. -/
theorem c6_llsq_noiseless_exact (sqrt : ℚ → ℚ) :
    llsqFit sqrt (some [0, 1, 2, 3]) (some [1, 3, 5, 7]) =
      .ok (llsqCore sqrt [0, 1, 2, 3] [1, 3, 5, 7]) ∧
    (llsqCore sqrt [0, 1, 2, 3] [1, 3, 5, 7]).a = 2 ∧
    (llsqCore sqrt [0, 1, 2, 3] [1, 3, 5, 7]).b = 1 ∧
    (llsqCore sqrt [0, 1, 2, 3] [1, 3, 5, 7]).r = 1 ∧
    (llsqCore sqrt [0, 1, 2, 3] [1, 3, 5, 7]).chi2 = 0 := by
  refine ⟨rfl, ?_, ?_, ?_, ?_⟩ <;>
    norm_num [llsqCore]

/-! ## Polynomial least squares: `TSMT$Pllsq` (`Pllsq.ts`)

The estimator owns a cached coefficient list `_c` (empty after
construction) and order `_n`.  The normal-equations solve is delegated
to the external `TSMT$Matrix` collaborator, passed in as a function
parameter; `Math.sqrt` (which only feeds `rms`) likewise. -/

structure PolyLLSQResult where
  coef : List ℚ
  rms : ℚ
deriving DecidableEq

structure PllsqState where
  c : List ℚ
  n : ℤ
deriving DecidableEq

/-- Constructor state (lines 41–47): empty coefficients, `_n = 0`. -/
def pllsqInit : PllsqState := ⟨[], 0⟩

/-- `TSMT$Pllsq.eval` (lines 164–179): `0` while no fit has been
performed, else Horner's method on the cached coefficients
(`val = c[n-1]; for (i = n-2; i >= 0; i--) val = x*val + c[i]`). -/
def pllsqEval (st : PllsqState) (x : ℚ) : ℚ :=
  if st.c.length = 0 then 0
  else st.c.foldr (fun ci val => x * val + ci) 0

/-- The internal coefficient count of `fit` (line 71):
`m = isNaN(m) || m < 1 ? 1 : Math.round(m) + 1` — note the ternary:
an invalid order makes the internal `m` equal to `1` (one coefficient,
an order-0 constant fit), while a valid order `q` gives
`Math.round(q) + 1`. -/
def pllsqM (m : Option ℚ) : ℤ :=
  match m with
  | none => 1                            -- isNaN(m)
  | some q => if q < 1 then 1 else jsRound q + 1

/-- Modelled from the spec: the external Matrix Solver collaborator
(`TSMT$Matrix`, imported by `Pllsq.ts` from "./Matrix" but not among
this repository's sources).  Spec contract (§6): given an n×n
coefficient matrix and a length-n right-hand side, return the solution
vector, failing on a singular system.  Implemented as exact Gaussian
elimination over ℚ on rows augmented with the right-hand side (an empty
result signals failure); no claim proved here depends on its output
beyond the 1×1 system evaluated in a counterexample. -/
def findPivot : List (List ℚ) → Option (List ℚ × List (List ℚ))
  | [] => none
  | r :: rs =>
    if r.headD 0 ≠ 0 then some (r, rs)
    else match findPivot rs with
      | none => none
      | some (p, rest) => some (p, r :: rest)

/-- Modelled from the spec (continued): eliminate the leading column of
`r` against pivot row `p`. -/
def elimStep (p r : List ℚ) : List ℚ :=
  (List.zipWith (fun a b => a - r.headD 0 / p.headD 0 * b) r p).tail

/-- Modelled from the spec (continued): recursive elimination and
back-substitution on a `k`-equation augmented system. -/
def gauss : ℕ → List (List ℚ) → List ℚ
  | 0, _ => []
  | k + 1, rows =>
    match findPivot rows with
    | none => []
    | some (p, rest) =>
      let sol := gauss k (rest.map (elimStep p))
      let ps := p.tail
      ((ps.getD k 0 - (List.zipWith (· * ·) ps sol).sum) / p.headD 0) :: sol

/-- Modelled from the spec (continued): `solve(matrix, rhs)`. -/
def specSolve (a : List (List ℚ)) (b : List ℚ) : List ℚ :=
  gauss a.length (List.zipWith (fun row rhs => row ++ [rhs]) a b)

/-- `TSMT$Pllsq.fit` (lines 62–154).  The null guard (line 66) runs
before any dereference, so no exception is possible; `n <= m` (line 73)
returns the empty result; otherwise the power sums
`asums[i] = Σ x^i` (with `asums[0] = n`), the right-hand side
`b[i] = Σ x^i·y` for `i < m`, and the matrix `a[i][j] = asums[i+j]`
are assembled, the solver is called, the coefficients and order are
cached, and the RMS error is computed by evaluating the (just-cached)
polynomial at every input point. -/
def pllsqFit (sqrt : ℚ → ℚ) (solve : List (List ℚ) → List ℚ → List ℚ)
    (st : PllsqState) (x y : Option (List ℚ)) (m : Option ℚ) :
    PolyLLSQResult × PllsqState :=
  match x, y with
  | some xs, some ys =>
    let n := xs.length
    let mi := pllsqM m
    if (n : ℤ) ≤ mi then (⟨[], 0⟩, st)
    else
      let mN := mi.toNat
      let len := 2 * (mN - 1)
      let asums := (List.range (len + 1)).map fun i =>
        if i = 0 then (n : ℚ) else (xs.map fun xj => xj ^ i).sum
      let b := (List.range mN).map fun i =>
        ((xs.zip ys).map fun p => p.1 ^ i * p.2).sum
      let a := (List.range mN).map fun i =>
        (List.range mN).map fun j => asums.getD (i + j) 0
      let c := solve a b
      let st' : PllsqState := ⟨c, mi⟩
      let s := ((xs.zip ys).map fun p =>
        (pllsqEval st' p.1 - p.2) * (pllsqEval st' p.1 - p.2)).sum
      (⟨c, sqrt (s / (n : ℚ))⟩, st')
  | _, _ => (⟨[], 0⟩, st)                -- !x || !y guard (lines 64–68)

/-- C4 (counterexample to the claim as stated), two divergences.
(1) The order is rounded with `Math.round`, not floor-rounded: at
`order = 2.5` with 4 points the internal `m` is `round(2.5)+1 = 4`, so
`n = 4 ≤ m` returns the empty result, while floor-rounding
(`⌊2.5⌋ + 1 = 3 < 4`) would proceed.
(2) An invalid (NaN) order does not default to order 1: the ternary at
line 71 makes the internal `m` equal to 1 (an order-0 constant fit), so
2 points — which for order 1 satisfy `n ≤ order+1` and should give the
empty result — instead produce a non-empty constant fit `[1/2]`. -/
theorem c4_counterexample_round_not_floor :
    ((pllsqFit (fun q => q) specSolve pllsqInit
        (some [0, 1, 2, 3]) (some [0, 1, 2, 3]) (some (5/2))).1.coef = []
      ∧ ¬ ((4 : ℤ) ≤ ⌊(5/2 : ℚ)⌋ + 1))
    ∧ ((pllsqFit (fun q => q) specSolve pllsqInit
        (some [0, 1]) (some [0, 1]) none).1.coef = [1/2]
      ∧ (2 : ℤ) ≤ 1 + 1) := by
  refine ⟨⟨?_, by norm_num⟩, ?_, by norm_num⟩
  · have hm : pllsqM (some (5/2)) = 4 := by
      norm_num [pllsqM, jsRound]
    simp [pllsqFit, hm]
  · have hm : pllsqM none = 1 := rfl
    have key : (pllsqFit (fun q => q) specSolve pllsqInit
        (some [0, 1]) (some [0, 1]) none).1.coef = specSolve [[2]] [1] := by
      simp only [pllsqFit, hm]
      norm_num [List.range_succ, List.zip_cons_cons]
    have hsolve : specSolve [[(2 : ℚ)]] [(1 : ℚ)] = [1/2] := by
      norm_num [specSolve, gauss, findPivot, elimStep]
    rw [key, hsolve]

/-- C4 (amended): `fit` never raises; a null array returns the
empty-coefficient zero-RMS result, as does `n ≤ m` where the internal
coefficient count `m` is `Math.round(order) + 1` for a valid order
(half-up rounding, not floor) and `1` (an order-0 constant fit, not
order 1) for a NaN or `< 1` order. -/
theorem c4_pllsq_guards (sqrt : ℚ → ℚ) (solve : List (List ℚ) → List ℚ → List ℚ)
    (st : PllsqState) (x y : Option (List ℚ)) (xs ys : List ℚ) (m : Option ℚ) :
    (pllsqFit sqrt solve st none y m).1 = ⟨[], 0⟩
    ∧ (pllsqFit sqrt solve st x none m).1 = ⟨[], 0⟩
    ∧ ((xs.length : ℤ) ≤ pllsqM m →
        (pllsqFit sqrt solve st (some xs) (some ys) m).1 = ⟨[], 0⟩)
    ∧ pllsqM none = 1
    ∧ (∀ q : ℚ, q < 1 → pllsqM (some q) = 1)
    ∧ (∀ q : ℚ, 1 ≤ q → pllsqM (some q) = jsRound q + 1) := by
  refine ⟨?_, ?_, ?_, rfl, ?_, ?_⟩
  · cases y <;> rfl
  · cases x <;> rfl
  · intro h
    simp only [pllsqFit]
    rw [if_pos h]
  · intro q hq
    simp [pllsqM, hq]
  · intro q hq
    simp [pllsqM, not_lt.2 hq]

/-- Witness for C4's amended guard behaviour. -/
theorem c4_witness :
    (pllsqFit (fun q => q) specSolve pllsqInit (some [0, 1]) (some [5, 6])
        (some 1)).1 = ⟨[], 0⟩ ∧ ((2 : ℤ) ≤ pllsqM (some 1)) := by
  have h2 : ((2 : ℤ) ≤ pllsqM (some 1)) := by norm_num [pllsqM, jsRound]
  exact ⟨(c4_pllsq_guards (fun q => q) specSolve pllsqInit (some [0, 1]) (some [5, 6])
    [0, 1] [5, 6] (some 1)).2.2.1 h2, h2⟩

/-- C7: `eval(x)` on a freshly constructed estimator — before any
`fit` — returns exactly `0` for every input. -/
theorem c7_eval_before_fit_is_zero (x : ℚ) : pllsqEval pllsqInit x = 0 := rfl

/-! ## Deviate engine: distribution parameter handling

The `gamma`, `normal` and `logistic` generators coerce their
parameters into instance fields before sampling; the sampling loops
themselves (rejection loops over `uniform` with `Math.log`/
`Math.sqrt`) do not touch the stored parameters again.  A `none`
argument models NaN (for which every JS comparison is false, so the
`isNaN` disjunct decides). -/

structure GammaParams where
  a : ℚ
  b : ℚ
  a1 : ℚ
  a2 : ℚ
deriving DecidableEq

/-- Line 209 of `gamma`:
`_a = isNaN(alpha) || (alpha <= 0.0) ? 1.0 : alpha`. -/
def gammaCoerceAlpha (alpha : Option ℚ) : ℚ :=
  match alpha with
  | none => 1
  | some a => if a ≤ 0 then 1 else a

/-- The parameter block of `gamma` (lines 209–217): coerce the shape,
shift it by `+1` when below `1`, floor the scale
(`_b = isNaN(beta) || beta < 0.0001 ? 0.5 : beta`), then derive the
squeeze constants `_a1 = _a - 1/3`, `_a2 = 1/sqrt(9*_a1)`. -/
def gammaInit (sqrt : ℚ → ℚ) (alpha beta : Option ℚ) : GammaParams :=
  let a0 := gammaCoerceAlpha alpha
  let a := if a0 < 1 then a0 + 1 else a0
  let b := match beta with
    | none => 1/2
    | some v => if v < 1/10000 then 1/2 else v
  let a1 := a - 1/3
  ⟨a, b, a1, 1 / sqrt (9 * a1)⟩

/-- JS truthiness of the `start` argument (NaN and `0` are falsy). -/
def jsTruthy (v : Option ℚ) : Bool :=
  match v with
  | none => false
  | some q => q ≠ 0

/-- The parameter state after one `gamma(start, alpha, beta, init)`
call: the guard at line 207 is `if (start)` — truthiness of the seed,
not the `init` flag — so any non-zero seed re-coerces the parameters. -/
def gammaParamsAfterCall (sqrt : ℚ → ℚ) (start alpha beta : Option ℚ)
    (prev : GammaParams) : GammaParams :=
  if jsTruthy start then gammaInit sqrt alpha beta else prev

/-- C9: whenever the parameter block runs (truthy seed), a coerced
shape below `1` is stored shifted by `+1` (so the stored shape is
always `≥ 1`) before the squeeze/accept sampling, and a NaN or
below-floor scale is stored as the in-range default `0.5` rather than
used as-is or rejected — the stored scale is always `≥ 1e-4`. -/
theorem c9_gamma_shape_shift_and_scale_floor (sqrt : ℚ → ℚ)
    (start alpha beta : Option ℚ) (prev : GammaParams)
    (hs : jsTruthy start = true) :
    (gammaCoerceAlpha alpha < 1 →
      (gammaParamsAfterCall sqrt start alpha beta prev).a = gammaCoerceAlpha alpha + 1)
    ∧ 1 ≤ (gammaParamsAfterCall sqrt start alpha beta prev).a
    ∧ (beta = none → (gammaParamsAfterCall sqrt start alpha beta prev).b = 1/2)
    ∧ (∀ v : ℚ, beta = some v → v < 1/10000 →
        (gammaParamsAfterCall sqrt start alpha beta prev).b = 1/2)
    ∧ 1/10000 ≤ (gammaParamsAfterCall sqrt start alpha beta prev).b := by
  simp only [gammaParamsAfterCall, hs, if_true]
  have ha0 : 0 < gammaCoerceAlpha alpha := by
    match alpha with
    | none => norm_num [gammaCoerceAlpha]
    | some a =>
      by_cases h : a ≤ 0
      · simp [gammaCoerceAlpha, h]
      · simp only [gammaCoerceAlpha, if_neg h]
        linarith
  refine ⟨fun h => by simp [gammaInit, if_pos h], ?_, ?_, ?_, ?_⟩
  · simp only [gammaInit]
    split
    · linarith
    · linarith
  · rintro rfl
    rfl
  · rintro v rfl hv
    show (if v < 1/10000 then (1/2 : ℚ) else v) = 1/2
    rw [if_pos hv]
  · match beta with
    | none => norm_num [gammaInit]
    | some v =>
      show (1/10000 : ℚ) ≤ if v < 1/10000 then (1/2 : ℚ) else v
      by_cases h : v < 1/10000
      · rw [if_pos h]
        norm_num
      · rw [if_neg h]
        linarith [not_lt.1 h]

/-- Witness for C9 at a concrete call: seed 7, shape 1/2, scale 1e-5. -/
theorem c9_witness :
    (gammaCoerceAlpha (some (1/2)) < 1 →
      (gammaParamsAfterCall (fun q => q) (some 7) (some (1/2)) (some (1/100000))
        ⟨1, 1, 0, 0⟩).a = gammaCoerceAlpha (some (1/2)) + 1)
    ∧ 1 ≤ (gammaParamsAfterCall (fun q => q) (some 7) (some (1/2)) (some (1/100000))
        ⟨1, 1, 0, 0⟩).a
    ∧ ((some (1/100000) : Option ℚ) = none →
      (gammaParamsAfterCall (fun q => q) (some 7) (some (1/2)) (some (1/100000))
        ⟨1, 1, 0, 0⟩).b = 1/2)
    ∧ (∀ v : ℚ, (some (1/100000) : Option ℚ) = some v → v < 1/10000 →
      (gammaParamsAfterCall (fun q => q) (some 7) (some (1/2)) (some (1/100000))
        ⟨1, 1, 0, 0⟩).b = 1/2)
    ∧ 1/10000 ≤ (gammaParamsAfterCall (fun q => q) (some 7) (some (1/2)) (some (1/100000))
        ⟨1, 1, 0, 0⟩).b :=
  c9_gamma_shape_shift_and_scale_floor (fun q => q) (some 7) (some (1/2))
    (some (1/100000)) ⟨1, 1, 0, 0⟩ (by norm_num [jsTruthy])

/-- The mean/deviation coercion of `normal` (lines 162–163):
`_u = isNaN(mu) || mu < 0 ? 0.0 : mu; _s = isNaN(sig) || sig < 1.0 ? 1.0 : sig`. -/
def normalInitUS (mu sig : Option ℚ) : ℚ × ℚ :=
  ((match mu with | none => 0 | some u => if u < 0 then 0 else u),
   (match sig with | none => 1 | some s => if s < 1 then 1 else s))

/-- The identical coercion of `logistic` (lines 261–262). -/
def logisticInitUS (mu sig : Option ℚ) : ℚ × ℚ :=
  ((match mu with | none => 0 | some u => if u < 0 then 0 else u),
   (match sig with | none => 1 | some s => if s < 1 then 1 else s))

/-- The constructor values of `_u` and `_s` (lines 52–53). -/
def deviatesCtorUS : ℚ × ℚ := (0, 1)

/-- C10: on every initializing call, `normal` and `logistic` coerce a
NaN or negative mean to `0` and a NaN or `< 1` deviation to `1`; hence
(including the constructor values, the only other write to the shared
fields) the stored mean is never negative and the stored deviation is
never strictly between `0` and `1` — no deviate
`u + s·(transform of uniforms)` is ever produced with such parameters. -/
theorem c10_normal_logistic_parameter_coercion (mu sig : Option ℚ) :
    (mu = none → (normalInitUS mu sig).1 = 0)
    ∧ (∀ u : ℚ, mu = some u → u < 0 → (normalInitUS mu sig).1 = 0)
    ∧ (sig = none → (normalInitUS mu sig).2 = 1)
    ∧ (∀ s : ℚ, sig = some s → s < 1 → (normalInitUS mu sig).2 = 1)
    ∧ logisticInitUS mu sig = normalInitUS mu sig
    ∧ (0 ≤ (normalInitUS mu sig).1 ∧ 1 ≤ (normalInitUS mu sig).2)
    ∧ ¬ ((normalInitUS mu sig).1 < 0)
    ∧ ¬ (0 < (normalInitUS mu sig).2 ∧ (normalInitUS mu sig).2 < 1)
    ∧ 0 ≤ deviatesCtorUS.1 ∧ 1 ≤ deviatesCtorUS.2 := by
  have hu : 0 ≤ (normalInitUS mu sig).1 := by
    match mu with
    | none => norm_num [normalInitUS]
    | some u =>
      by_cases h : u < 0
      · simp [normalInitUS, h]
      · simp only [normalInitUS, if_neg h]
        linarith
  have hs : 1 ≤ (normalInitUS mu sig).2 := by
    match sig with
    | none => norm_num [normalInitUS]
    | some s =>
      by_cases h : s < 1
      · simp [normalInitUS, h]
      · simp only [normalInitUS, if_neg h]
        linarith
  refine ⟨?_, ?_, ?_, ?_, rfl, ⟨hu, hs⟩, by linarith, by rintro ⟨h1, h2⟩; linarith,
    le_refl 0, le_refl 1⟩
  · rintro rfl
    rfl
  · rintro u rfl h
    simp [normalInitUS, h]
  · rintro rfl
    rfl
  · rintro s rfl h
    simp [normalInitUS, h]

/-- Witness for C10 at concrete NaN mean and deviation `1/2`. -/
theorem c10_witness :
    (∀ u : ℚ, (some (-3) : Option ℚ) = some u → u < 0 →
      (normalInitUS (some (-3)) (some (1/2))).1 = 0)
    ∧ (∀ s : ℚ, (some (1/2) : Option ℚ) = some s → s < 1 →
      (normalInitUS (some (-3)) (some (1/2))).2 = 1)
    ∧ ¬ ((normalInitUS (some (-3)) (some (1/2))).1 < 0)
    ∧ ¬ (0 < (normalInitUS (some (-3)) (some (1/2))).2 ∧
        (normalInitUS (some (-3)) (some (1/2))).2 < 1) := by
  obtain ⟨_, h2, _, h4, _, _, h7, h8, _⟩ :=
    c10_normal_logistic_parameter_coercion (some (-3)) (some (1/2))
  exact ⟨h2, h4, h7, h8⟩

end TSMT
